import Mathlib

/-!
Verification of the TIMIT seq2seq knowledge-distillation teacher experiment
script (`recipes/TIMIT/ASR/ASR_seq2seq_knowledge_distillation/experiment_teacher.py`).

The script is orchestration glue over external library calls (feature
extraction, encoder, decoder, losses, searchers).  We embed its dataflow
shallowly: tensor-valued intermediates are represented by a free term algebra
`Tens`, whose constructors stand for the external (uninterpreted) tensor
operations the script applies; scalar quantities that the script itself
computes arithmetic on (loss weights, relative lengths) are rationals.
This makes the script's own logic — the order in which it applies the
external operations, its stage dispatch, and its local arithmetic — fully
explicit and decidable, while treating the external operations as black
boxes, exactly as the script does.
-/

/-- Free term algebra of tensor-valued intermediates.  Each constructor is an
uninterpreted external operation invoked by the script (`params.enc`,
`params.compute_features`, ...); atoms are the batch inputs. -/
inductive Tens where
  | wavsIn : Tens
  | phnsIn : Tens
  | wavLensIn : Tens
  | idsIn : Tens
  | aug : Tens → Tens
  | feats : Tens → Tens
  | norm : Tens → Tens → Tens
  | enc : Tens → Tens
  | ctc_lin : Tens → Tens
  | log_softmax : Tens → Tens
  | prepend_bos : Tens → Tens
  | emb : Tens → Tens
  | dec : Tens → Tens → Tens → Tens
  | seq_lin : Tens → Tens
  | append_eos : Tens → Tens
  | greedy_hyps : Tens → Tens → Tens
  | beam_hyps : Tens → Tens → Tens
  | per_details : Tens → Tens → Tens
  deriving DecidableEq, Repr

/-- The configured parameter bundle, restricted to what the script's own
logic inspects: whether an augmentation module is configured
(`hasattr(params, "augmentation")`), the CTC loss weight, and the two
(uninterpreted) cost functions producing scalar losses. -/
structure Params where
  hasAugmentation : Bool
  ctc_weight : ℚ
  ctc_cost : Tens → Tens → Tens → ℚ → ℚ
  seq_cost : Tens → Tens → ℚ → ℚ

/-- One element of the input batch `x = (ids, wavs, wav_lens)`. -/
structure Inputs where
  ids : Tens
  wavs : Tens
  wav_lens : Tens
  deriving DecidableEq, Repr

/-- One element of the target batch `y = (ids, phns, phn_lens)`.  The padded
phoneme tensor is symbolic; its relative length `phn_lens` and padded width
`phns.shape[1]` are the scalars the script computes arithmetic on. -/
structure Targets where
  ids : Tens
  phns : Tens
  phn_lens : ℚ
  width : ℕ
  deriving DecidableEq, Repr

/-- The predictions tuple returned by `compute_forward`: a three-tuple
`(p_ctc, p_seq, wav_lens)`, extended with hypotheses (`hyps = some _`,
a four-tuple) for the valid/test stages. -/
structure Forward where
  p_ctc : Tens
  p_seq : Tens
  wav_lens : Tens
  hyps : Option Tens
  deriving DecidableEq, Repr

/-- The stats dictionary built by the batch hooks: an optional "PER" entry
(edit-distance details, symbolic) and an optional "loss" entry. -/
structure Stats where
  PER : Option Tens
  loss : Option ℚ
  deriving DecidableEq, Repr

/-- `ASR.compute_forward`, translated line by line from the source.  The
`hasattr(params, "augmentation")` test is `P.hasAugmentation`; every external
call becomes the corresponding `Tens` constructor. -/
def compute_forward (P : Params) (x : Inputs) (y : Targets) (stage : String) :
    Forward :=
  let wavs := x.wavs
  let wavs := if P.hasAugmentation then Tens.aug wavs else wavs
  let feats := Tens.feats wavs
  let feats := Tens.norm feats x.wav_lens
  let xe := Tens.enc feats
  let logits := Tens.ctc_lin xe
  let p_ctc := Tens.log_softmax logits
  let y_in := Tens.prepend_bos y.phns
  let e_in := Tens.emb y_in
  let h := Tens.dec e_in xe x.wav_lens
  let logits2 := Tens.seq_lin h
  let p_seq := Tens.log_softmax logits2
  if stage = "valid" then
    ⟨p_ctc, p_seq, x.wav_lens, some (Tens.greedy_hyps xe x.wav_lens)⟩
  else if stage = "test" then
    ⟨p_ctc, p_seq, x.wav_lens, some (Tens.beam_hyps xe x.wav_lens)⟩
  else
    ⟨p_ctc, p_seq, x.wav_lens, none⟩

/-- The encoder output `x` of `compute_forward` (after optional augmentation,
feature extraction, normalization, encoding). -/
def encoded (P : Params) (x : Inputs) : Tens :=
  Tens.enc (Tens.norm
    (Tens.feats (if P.hasAugmentation then Tens.aug x.wavs else x.wavs))
    x.wav_lens)

/-- `abs_length = torch.round(phn_lens * phns.shape[1])` from
`compute_objectives`. -/
def abs_length (tg : Targets) : ℤ :=
  round (tg.phn_lens * (tg.width : ℚ))

/-- `rel_length = (abs_length + 1) / phns.shape[1]` from
`compute_objectives`. -/
def rel_length (tg : Targets) : ℚ :=
  ((abs_length tg : ℚ) + 1) / (tg.width : ℚ)

/-- `loss_ctc = params.ctc_cost(p_ctc, phns, wav_lens, phn_lens)`. -/
def loss_ctc (P : Params) (preds : Forward) (tg : Targets) : ℚ :=
  P.ctc_cost preds.p_ctc tg.phns preds.wav_lens tg.phn_lens

/-- `loss_seq = params.seq_cost(p_seq, phns_with_eos, length=rel_length)`,
with `phns_with_eos = append_eos_token(phns, length=abs_length, ...)`. -/
def loss_seq (P : Params) (preds : Forward) (tg : Targets) : ℚ :=
  P.seq_cost preds.p_seq (Tens.append_eos tg.phns) (rel_length tg)

/-- `loss = ctc_weight * loss_ctc + (1 - ctc_weight) * loss_seq`. -/
def objectives_loss (P : Params) (preds : Forward) (tg : Targets) : ℚ :=
  P.ctc_weight * loss_ctc P preds tg +
    (1 - P.ctc_weight) * loss_seq P preds tg

/-- `ASR.compute_objectives`, translated from the source.  The Python tuple
unpacking (`p_ctc, p_seq, wav_lens = predictions` for train, a four-tuple
otherwise) raises when the arity does not match the stage; we model that
failure as `none`.  For non-train stages the hypotheses are decoded and
scored against the references (`wer_details_for_batch`), yielding the
symbolic "PER" stats entry. -/
def compute_objectives (P : Params) (predictions : Forward) (targets : Targets)
    (stage : String) : Option (ℚ × Stats) :=
  if stage = "train" then
    match predictions.hyps with
    | some _ => none
    | none =>
      some (objectives_loss P predictions targets, ⟨none, none⟩)
  else
    match predictions.hyps with
    | none => none
    | some hyps =>
      some (objectives_loss P predictions targets,
        ⟨some (Tens.per_details targets.ids hyps), none⟩)

/-- The mutable training state the framework's backward/step/reset
operations act on: model weights, accumulated gradients, and the
optimizer's internal state, each abstracted to an integer snapshot. -/
structure TrainState where
  weights : ℤ
  grads : ℤ
  opt : ℤ
  deriving DecidableEq, Repr

/-- The external autodiff/optimizer operations the hooks invoke:
`loss.backward()`, `self.optimizer.step()` and `self.optimizer.zero_grad()`,
kept abstract as arbitrary state transformers. -/
structure Framework where
  backward : TrainState → ℚ → TrainState
  opt_step : TrainState → TrainState
  zero_grad : TrainState → TrainState

/-- A batch, the pair `(inputs, targets)` delivered by the data loader. -/
structure Batch where
  x : Inputs
  y : Targets
  deriving DecidableEq, Repr

/-- `ASR.fit_batch`, translated from the source: forward and objectives both
run with the default stage `"train"`, then `loss.backward()`, then
`self.optimizer.step()`, then `self.optimizer.zero_grad()`, and the loss is
recorded in the returned stats.  `none` models the (unreachable) tuple
unpacking failure inside `compute_objectives`. -/
def fit_batch (P : Params) (F : Framework) (s : TrainState) (b : Batch) :
    Option (TrainState × Stats) :=
  let predictions := compute_forward P b.x b.y "train"
  match compute_objectives P predictions b.y "train" with
  | none => none
  | some (loss, stats) =>
    let s := F.backward s loss
    let s := F.opt_step s
    let s := F.zero_grad s
    some (s, { stats with loss := some loss })

/-- `ASR.evaluate_batch`, translated from the source: forward and objectives
with the given stage, the loss recorded in the stats, and no call to any
state-mutating framework operation (the ambient state is returned as is). -/
def evaluate_batch (P : Params) (s : TrainState) (b : Batch) (stage : String) :
    Option (TrainState × Stats) :=
  let predictions := compute_forward P b.x b.y stage
  match compute_objectives P predictions b.y stage with
  | none => none
  | some (loss, stats) =>
    some (s, { stats with loss := some loss })

/-- A checkpoint record: its save time and its "PER" metadata entry. -/
structure Checkpoint where
  time : ℕ
  per : ℚ
  deriving DecidableEq, Repr

/-- Modelled from the spec: `ckpt_recency` (from
`speechbrain.utils.checkpoints`, not under `src/`) is the importance key
ranking checkpoints most-recent-first. -/
def ckpt_recency (c : Checkpoint) : ℚ := (c.time : ℚ)

/-- Modelled from the spec: `Checkpointer.save_and_keep_only` (from
`speechbrain.utils.checkpoints`, not under `src/`) saves a new checkpoint
carrying the given metadata and then prunes, keeping, for each importance
key in the list, the checkpoint(s) maximizing that key and discarding all
others ("'Keep only' pruning discards all but the checkpoints selected by
this combined ranking"). -/
def save_and_keep_only (meta_per : ℚ) (now : ℕ) (ckpts : List Checkpoint)
    (keys : List (Checkpoint → ℚ)) : List Checkpoint :=
  let saved := ckpts ++ [⟨now, meta_per⟩]
  saved.filter fun c => keys.any fun k => saved.all fun d => decide (k d ≤ k c)

/-- The checkpoint step of `ASR.on_epoch_end`, translated from the source:
`checkpointer.save_and_keep_only(meta={"PER": per},
importance_keys=[ckpt_recency, lambda c: -c.meta["PER"]])`, where `per` is
the summarized validation error rate and `now` the fresh save time. -/
def on_epoch_end (ckpts : List Checkpoint) (now : ℕ) (per : ℚ) :
    List Checkpoint :=
  save_and_keep_only per now ckpts [ckpt_recency, fun c => -c.per]

/-- Modelled from the spec: `Checkpointer.recover_if_possible(key)` (from
`speechbrain.utils.checkpoints`, not under `src/`) restores the saved
checkpoint maximizing the given importance key, or nothing when no
checkpoint exists ("restore (optionally selecting a checkpoint by lowest
metric)"). -/
def recover_if_possible (key : Checkpoint → ℚ) :
    List Checkpoint → Option Checkpoint
  | [] => none
  | c :: cs => some (cs.foldl (fun b d => if key b < key d then d else b) c)

/-- The observable steps of the script tail after training. -/
inductive Event where
  | recover : Option Checkpoint → Event
  | evaluateTest : Event
  | logStats : Event
  | writeReport : Event
  deriving DecidableEq, Repr

/-- The script tail after `asr_brain.fit`, translated from the source:
recover the best checkpoint via the importance key `lambda c: -c.meta["PER"]`,
run the final test evaluation, log the test stats, and write the textual
error report to `params.wer_file`. -/
def final_evaluation (ckpts : List Checkpoint) : List Event :=
  [Event.recover (recover_if_possible (fun c => -c.per) ckpts),
   Event.evaluateTest, Event.logStats, Event.writeReport]

/-- The acoustic path in the order the spec claims it: feature extraction
first, then the optional augmentation step, then normalization, then the
encoder, then the CTC projection.  Written from the spec's words, to be
compared with the path `compute_forward` actually takes. -/
def claimed_acoustic_path (hasAug : Bool) (wavs wav_lens : Tens) : Tens :=
  Tens.log_softmax (Tens.ctc_lin (Tens.enc (Tens.norm
    (if hasAug then Tens.aug (Tens.feats wavs) else Tens.feats wavs)
    wav_lens)))

/-- Concrete parameter bundle with an augmentation module configured. -/
def P_aug : Params :=
  ⟨true, 1/2, fun _ _ _ l => l + 1, fun _ _ l => l⟩

/-- Concrete parameter bundle without augmentation, `ctc_weight = 1/2`. -/
def P_half : Params :=
  ⟨false, 1/2, fun _ _ _ l => l + 1, fun _ _ l => l⟩

/-- A concrete input batch element. -/
def x0 : Inputs := ⟨Tens.idsIn, Tens.wavsIn, Tens.wavLensIn⟩

/-- A concrete target batch element: relative length 3/4, padded width 4. -/
def y0 : Targets := ⟨Tens.idsIn, Tens.phnsIn, 3/4, 4⟩

/-- A concrete batch. -/
def b0 : Batch := ⟨x0, y0⟩

/-- A concrete train-stage predictions tuple (no hypotheses). -/
def preds0 : Forward := ⟨Tens.wavsIn, Tens.phnsIn, Tens.wavLensIn, none⟩

/-- A concrete non-train predictions tuple (with hypotheses). -/
def preds1 : Forward :=
  ⟨Tens.wavsIn, Tens.phnsIn, Tens.wavLensIn, some Tens.phnsIn⟩

/-- C1: for every predictions tuple and targets batch accepted by
`compute_objectives`, the returned loss is
`ctc_weight * loss_ctc + (1 - ctc_weight) * loss_seq`; with `ctc_weight = 1`
it equals the CTC loss alone, and with `ctc_weight = 0` the sequence loss
alone. -/
theorem compute_objectives_weighted_sum (P : Params) (preds : Forward)
    (tg : Targets) (stage : String) (L : ℚ) (st : Stats)
    (h : compute_objectives P preds tg stage = some (L, st)) :
    L = P.ctc_weight * loss_ctc P preds tg +
          (1 - P.ctc_weight) * loss_seq P preds tg
    ∧ (P.ctc_weight = 1 → L = loss_ctc P preds tg)
    ∧ (P.ctc_weight = 0 → L = loss_seq P preds tg) := by
  have hL : L = objectives_loss P preds tg := by
    unfold compute_objectives at h
    split_ifs at h <;> cases hp : preds.hyps <;> rw [hp] at h <;>
      simp_all
  refine ⟨hL, fun hw => ?_, fun hw => ?_⟩ <;>
    rw [hL, objectives_loss, hw] <;> ring

/-- Witness for C1 at a concrete parameter bundle, predictions tuple and
targets batch. -/
theorem compute_objectives_weighted_sum_witness :
    compute_objectives P_half preds0 y0 "train" =
      some (objectives_loss P_half preds0 y0, ⟨none, none⟩)
    ∧ objectives_loss P_half preds0 y0 =
        P_half.ctc_weight * loss_ctc P_half preds0 y0 +
          (1 - P_half.ctc_weight) * loss_seq P_half preds0 y0 :=
  ⟨rfl, (compute_objectives_weighted_sum P_half preds0 y0 "train"
    (objectives_loss P_half preds0 y0) ⟨none, none⟩ rfl).1⟩

/-- C2: `compute_forward` returns the three-tuple (no hypotheses) for the
train stage; for valid it additionally returns the greedy searcher's
hypotheses, for test the beam searcher's; hypotheses are produced exactly
for the stages valid and test. -/
theorem compute_forward_stage_dispatch (P : Params) (x : Inputs)
    (y : Targets) :
    compute_forward P x y "train" =
      ⟨Tens.log_softmax (Tens.ctc_lin (encoded P x)),
       Tens.log_softmax (Tens.seq_lin (Tens.dec (Tens.emb
         (Tens.prepend_bos y.phns)) (encoded P x) x.wav_lens)),
       x.wav_lens, none⟩
    ∧ compute_forward P x y "valid" =
      ⟨Tens.log_softmax (Tens.ctc_lin (encoded P x)),
       Tens.log_softmax (Tens.seq_lin (Tens.dec (Tens.emb
         (Tens.prepend_bos y.phns)) (encoded P x) x.wav_lens)),
       x.wav_lens, some (Tens.greedy_hyps (encoded P x) x.wav_lens)⟩
    ∧ compute_forward P x y "test" =
      ⟨Tens.log_softmax (Tens.ctc_lin (encoded P x)),
       Tens.log_softmax (Tens.seq_lin (Tens.dec (Tens.emb
         (Tens.prepend_bos y.phns)) (encoded P x) x.wav_lens)),
       x.wav_lens, some (Tens.beam_hyps (encoded P x) x.wav_lens)⟩
    ∧ ∀ stage : String, (compute_forward P x y stage).hyps.isSome = true ↔
        (stage = "valid" ∨ stage = "test") := by
  refine ⟨rfl, rfl, rfl, fun stage => ?_⟩
  unfold compute_forward
  split_ifs with h1 h2 <;> simp_all

/-- In every stage, the CTC log-probabilities computed by `compute_forward`
come from the path optional augmentation, feature extraction, normalization,
encoder, CTC projection, log-softmax. -/
lemma p_ctc_eq (P : Params) (x : Inputs) (y : Targets) (stage : String) :
    (compute_forward P x y stage).p_ctc =
      Tens.log_softmax (Tens.ctc_lin (Tens.enc (Tens.norm
        (Tens.feats (if P.hasAugmentation then Tens.aug x.wavs else x.wavs))
        x.wav_lens))) := by
  unfold compute_forward
  split_ifs <;> rfl

/-- C4 counterexample: with an augmentation module configured,
`compute_forward` does not follow the spec's claimed order (feature
extraction before augmentation); augmentation is applied to the raw
waveforms before feature extraction. -/
theorem compute_forward_claimed_order_cex :
    (compute_forward P_aug x0 y0 "train").p_ctc ≠
      claimed_acoustic_path true x0.wavs x0.wav_lens := by
  decide

/-- C4 (amended): in every stage, `compute_forward` processes the acoustic
path in the order optional augmentation (on the raw waveforms) first, then
feature extraction, then normalization, then the encoder, then the CTC
projection. -/
theorem compute_forward_acoustic_path (P : Params) (x : Inputs)
    (y : Targets) (stage : String) :
    (compute_forward P x y stage).p_ctc =
      Tens.log_softmax (Tens.ctc_lin (Tens.enc (Tens.norm
        (Tens.feats (if P.hasAugmentation then Tens.aug x.wavs else x.wavs))
        x.wav_lens))) :=
  p_ctc_eq P x y stage

/-- C9: when an augmentation module is configured, `compute_forward`
applies it to the input waveforms in every stage; when it is absent, the
waveforms pass to feature extraction unmodified in every stage. -/
theorem compute_forward_augmentation_all_stages (P : Params) (x : Inputs)
    (y : Targets) :
    (P.hasAugmentation = true → ∀ stage : String,
      (compute_forward P x y stage).p_ctc =
        Tens.log_softmax (Tens.ctc_lin (Tens.enc (Tens.norm
          (Tens.feats (Tens.aug x.wavs)) x.wav_lens))))
    ∧ (P.hasAugmentation = false → ∀ stage : String,
      (compute_forward P x y stage).p_ctc =
        Tens.log_softmax (Tens.ctc_lin (Tens.enc (Tens.norm
          (Tens.feats x.wavs) x.wav_lens)))) := by
  constructor <;> intro hA stage <;> simp [p_ctc_eq, hA]

/-- Witness for C9 at a concrete configuration with augmentation, in the
test stage. -/
theorem compute_forward_augmentation_all_stages_witness :
    (compute_forward P_aug x0 y0 "test").p_ctc =
      Tens.log_softmax (Tens.ctc_lin (Tens.enc (Tens.norm
        (Tens.feats (Tens.aug x0.wavs)) x0.wav_lens))) :=
  (compute_forward_augmentation_all_stages P_aug x0 y0).1 rfl "test"

/-- C10: for every stage string other than "valid" and "test", including
unrecognized tags, `compute_forward` takes the training branch: it returns
the same value as with stage "train", with no hypotheses and no error. -/
theorem compute_forward_unrecognized_stage (P : Params) (x : Inputs)
    (y : Targets) (stage : String) (h1 : stage ≠ "valid")
    (h2 : stage ≠ "test") :
    compute_forward P x y stage = compute_forward P x y "train"
    ∧ (compute_forward P x y stage).hyps = none := by
  unfold compute_forward
  simp [h1, h2]

/-- Witness for C10 at the out-of-vocabulary stage tag "Train". -/
theorem compute_forward_unrecognized_stage_witness :
    compute_forward P_half x0 y0 "Train" = compute_forward P_half x0 y0 "train"
    ∧ (compute_forward P_half x0 y0 "Train").hyps = none :=
  compute_forward_unrecognized_stage P_half x0 y0 "Train" (by decide)
    (by decide)

/-- A concrete framework: gradient accumulation, a weight/optimizer update
and a gradient reset, distinguishable on `TrainState`. -/
def F0 : Framework :=
  ⟨fun s _ => ⟨s.weights, s.grads + 1, s.opt⟩,
   fun s => ⟨s.weights + s.grads, s.grads, s.opt + 1⟩,
   fun s => ⟨s.weights, 0, s.opt⟩⟩

/-- A concrete training state. -/
def s0 : TrainState := ⟨3, 4, 5⟩

/-- C3: `fit_batch` runs the forward computation and the loss computation
(both in the train stage), then applies backward, then the optimizer step,
then the gradient reset, in this order, and returns the loss in the stats;
and the stats produced by the objectives for any non-train stage carry
error statistics. -/
theorem fit_batch_order (P : Params) (F : Framework) (s : TrainState)
    (b : Batch) :
    fit_batch P F s b =
      some (F.zero_grad (F.opt_step (F.backward s
          (objectives_loss P (compute_forward P b.x b.y "train") b.y))),
        ⟨none, some (objectives_loss P (compute_forward P b.x b.y "train")
          b.y)⟩)
    ∧ ∀ (stage : String) (preds : Forward) (L : ℚ) (st : Stats),
        stage ≠ "train" →
        compute_objectives P preds b.y stage = some (L, st) →
        st.PER.isSome = true := by
  refine ⟨rfl, fun stage preds L st hs h => ?_⟩
  unfold compute_objectives at h
  rw [if_neg hs] at h
  cases hp : preds.hyps <;> rw [hp] at h <;> simp_all
  rw [← h.2]
  rfl

/-- Witness for C3: the concrete stats produced by `compute_objectives` at
the valid stage carry a "PER" entry, and `fit_batch` at a concrete batch
performs backward, step, reset in order. -/
theorem fit_batch_order_witness :
    fit_batch P_half F0 s0 b0 =
      some (F0.zero_grad (F0.opt_step (F0.backward s0
          (objectives_loss P_half (compute_forward P_half b0.x b0.y "train")
            b0.y))),
        ⟨none, some (objectives_loss P_half
          (compute_forward P_half b0.x b0.y "train") b0.y)⟩)
    ∧ (⟨some (Tens.per_details y0.ids Tens.phnsIn), none⟩ : Stats).PER.isSome
        = true :=
  ⟨(fit_batch_order P_half F0 s0 b0).1,
   (fit_batch_order P_half F0 s0 b0).2 "valid" preds1
     (objectives_loss P_half preds1 y0)
     ⟨some (Tens.per_details y0.ids Tens.phnsIn), none⟩ (by decide) rfl⟩

/-- C7: `evaluate_batch` runs the forward and loss computations but leaves
the training state untouched: model weights, gradients and optimizer state
are unchanged (it invokes no backward, step or reset operation — it does
not even receive the framework's update operations). -/
theorem evaluate_batch_no_update (P : Params) (s : TrainState) (b : Batch)
    (stage : String) (s' : TrainState) (st : Stats)
    (h : evaluate_batch P s b stage = some (s', st)) :
    s' = s ∧ s'.weights = s.weights ∧ s'.grads = s.grads ∧ s'.opt = s.opt
    ∧ st.loss = some (objectives_loss P (compute_forward P b.x b.y stage)
        b.y) := by
  simp only [evaluate_batch] at h
  cases hc : compute_objectives P (compute_forward P b.x b.y stage) b.y stage
      with
  | none => rw [hc] at h; simp_all
  | some v =>
    rw [hc] at h
    obtain ⟨L, sts⟩ := v
    simp only [Option.some.injEq, Prod.mk.injEq] at h
    obtain ⟨hs, hst⟩ := h
    have hL : L = objectives_loss P (compute_forward P b.x b.y stage) b.y := by
      unfold compute_objectives at hc
      split_ifs at hc <;>
        cases hp : (compute_forward P b.x b.y stage).hyps <;>
        rw [hp] at hc <;> simp_all
    subst hs
    refine ⟨rfl, rfl, rfl, rfl, ?_⟩
    rw [← hst, hL]

/-- The stats returned by `evaluate_batch` at the concrete valid-stage
batch. -/
def stEval0 : Stats :=
  ⟨some (Tens.per_details Tens.idsIn (Tens.greedy_hyps
      (Tens.enc (Tens.norm (Tens.feats Tens.wavsIn) Tens.wavLensIn))
      Tens.wavLensIn)),
   some (objectives_loss P_half (compute_forward P_half x0 y0 "valid") y0)⟩

/-- Witness for C7 at a concrete state and batch in the valid stage. -/
theorem evaluate_batch_no_update_witness :
    evaluate_batch P_half s0 b0 "valid" = some (s0, stEval0)
    ∧ stEval0.loss = some (objectives_loss P_half
        (compute_forward P_half b0.x b0.y "valid") b0.y) :=
  ⟨rfl, (evaluate_batch_no_update P_half s0 b0 "valid" s0 stEval0
    rfl).2.2.2.2⟩

/-- C8: the relative length `compute_objectives` passes to the sequence
cost equals `(round(phn_lens * padded_width) + 1) / padded_width`, and
multiplying it back by the padded width reproduces the original absolute
label-sequence length plus one (the appended end-of-sequence token). -/
theorem rel_length_decode (tg : Targets) (h : 0 < tg.width) :
    rel_length tg = ((abs_length tg : ℚ) + 1) / (tg.width : ℚ)
    ∧ rel_length tg * (tg.width : ℚ) = (abs_length tg : ℚ) + 1
    ∧ ∀ (P : Params) (preds : Forward), loss_seq P preds tg =
        P.seq_cost preds.p_seq (Tens.append_eos tg.phns) (rel_length tg) := by
  refine ⟨rfl, ?_, fun P preds => rfl⟩
  have hw : ((tg.width : ℚ)) ≠ 0 := by
    exact_mod_cast Nat.pos_iff_ne_zero.mp h
  rw [rel_length]
  exact div_mul_cancel₀ _ hw

/-- Witness for C8 at a concrete targets batch (relative length 3/4,
padded width 4: absolute length 3, decoded back to 4 = 3 + 1). -/
theorem rel_length_decode_witness :
    0 < y0.width
    ∧ rel_length y0 * (y0.width : ℚ) = (abs_length y0 : ℚ) + 1 :=
  ⟨by decide, (rel_length_decode y0 (by decide)).2.1⟩

/-- C5: `on_epoch_end` saves a checkpoint carrying the validation error
rate and prunes with the importance keys recency then negated error rate:
assuming the save time is fresh (later than all existing checkpoints), the
newly saved (most recent) checkpoint is retained, every checkpoint with the
lowest recorded error rate is retained, and nothing else is. -/
theorem on_epoch_end_retention (ckpts : List Checkpoint) (now : ℕ) (per : ℚ)
    (hfresh : ∀ c ∈ ckpts, c.time < now) :
    (⟨now, per⟩ : Checkpoint) ∈ on_epoch_end ckpts now per
    ∧ (∀ c ∈ ckpts ++ [(⟨now, per⟩ : Checkpoint)],
        (∀ d ∈ ckpts ++ [(⟨now, per⟩ : Checkpoint)], c.per ≤ d.per) →
        c ∈ on_epoch_end ckpts now per)
    ∧ (∀ c ∈ on_epoch_end ckpts now per,
        c = ⟨now, per⟩ ∨
          (c ∈ ckpts ++ [(⟨now, per⟩ : Checkpoint)]
            ∧ ∀ d ∈ ckpts ++ [(⟨now, per⟩ : Checkpoint)], c.per ≤ d.per)) := by
  unfold on_epoch_end save_and_keep_only
  simp only [List.mem_filter, List.any_cons, List.any_nil, List.all_eq_true,
    Bool.or_eq_true, Bool.or_false, decide_eq_true_eq]
  refine ⟨⟨by simp, Or.inl fun d hd => ?_⟩, fun c hc hmin => ⟨hc, ?_⟩,
    fun c hc => ?_⟩
  · rcases List.mem_append.mp hd with hd | hd
    · have hlt : (d.time : ℚ) < (now : ℚ) := by exact_mod_cast hfresh d hd
      exact le_of_lt hlt
    · simp only [List.mem_singleton] at hd
      subst hd
      exact le_refl _
  · exact Or.inr fun d hd => neg_le_neg (hmin d hd)
  · obtain ⟨hcmem, hkey⟩ := hc
    rcases hkey with hrec | hper
    · left
      rcases List.mem_append.mp hcmem with hmem | hmem
      · exfalso
        have hle : ckpt_recency (⟨now, per⟩ : Checkpoint) ≤ ckpt_recency c :=
          hrec ⟨now, per⟩ (List.mem_append_right _ (List.mem_singleton.mpr
            rfl))
        have : (now : ℚ) ≤ (c.time : ℚ) := hle
        exact absurd (hfresh c hmem) (not_lt.mpr (by exact_mod_cast this))
      · simpa using hmem
    · right
      exact ⟨hcmem, fun d hd => le_of_neg_le_neg (hper d hd)⟩

/-- Concrete checkpoint list: times 1..3, error rates 5, 3, 4. -/
def cks : List Checkpoint := [⟨1, 5⟩, ⟨2, 3⟩, ⟨3, 4⟩]

/-- Witness for C5: saving at fresh time 4 retains the newly saved
checkpoint. -/
theorem on_epoch_end_retention_witness :
    (⟨4, (2 : ℚ)⟩ : Checkpoint) ∈ on_epoch_end cks 4 2 :=
  (on_epoch_end_retention cks 4 2 (by decide)).1

/-- The running best of a nonempty checkpoint list under an importance key
is a member and maximizes the key. -/
lemma foldl_best_spec (key : Checkpoint → ℚ) :
    ∀ (cs : List Checkpoint) (c : Checkpoint),
      (cs.foldl (fun b d => if key b < key d then d else b) c = c ∨
        cs.foldl (fun b d => if key b < key d then d else b) c ∈ cs)
      ∧ key c ≤ key (cs.foldl (fun b d => if key b < key d then d else b) c)
      ∧ ∀ d ∈ cs,
          key d ≤ key (cs.foldl (fun b d => if key b < key d then d else b) c)
  | [], c => ⟨Or.inl rfl, le_refl _, by simp⟩
  | d :: ds, c => by
    simp only [List.foldl_cons]
    by_cases hcd : key c < key d
    · rw [if_pos hcd]
      obtain ⟨hmem, hacc, hall⟩ := foldl_best_spec key ds d
      refine ⟨?_, le_of_lt (lt_of_lt_of_le hcd hacc), fun e he => ?_⟩
      · rcases hmem with hmem | hmem
        · exact Or.inr (by rw [hmem]; exact List.mem_cons_self d ds)
        · exact Or.inr (List.mem_cons_of_mem d hmem)
      · rcases List.mem_cons.mp he with he | he
        · rw [he]; exact hacc
        · exact hall e he
    · rw [if_neg hcd]
      obtain ⟨hmem, hacc, hall⟩ := foldl_best_spec key ds c
      refine ⟨?_, hacc, fun e he => ?_⟩
      · rcases hmem with hmem | hmem
        · exact Or.inl hmem
        · exact Or.inr (List.mem_cons_of_mem d hmem)
      · rcases List.mem_cons.mp he with he | he
        · rw [he]; exact le_trans (le_of_not_lt hcd) hacc
        · exact hall e he

/-- C6: after training, the script tail recovers a checkpoint (selected by
maximizing the negated PER metadata, i.e. the lowest recorded error rate),
then runs the final test evaluation, then logs, and only then writes the
textual error report; the recovered checkpoint is a saved one minimizing
the recorded error rate. -/
theorem final_evaluation_order (ckpts : List Checkpoint) :
    final_evaluation ckpts =
      [Event.recover (recover_if_possible (fun c => -c.per) ckpts),
       Event.evaluateTest, Event.logStats, Event.writeReport]
    ∧ ∀ c : Checkpoint, recover_if_possible (fun c => -c.per) ckpts = some c →
        c ∈ ckpts ∧ ∀ d ∈ ckpts, c.per ≤ d.per := by
  refine ⟨rfl, fun c hc => ?_⟩
  cases ckpts with
  | nil => exact absurd hc (by simp [recover_if_possible])
  | cons hd tl =>
    simp only [recover_if_possible, Option.some.injEq] at hc
    obtain ⟨hmem, hacc, hall⟩ := foldl_best_spec (fun c => -c.per) tl hd
    rw [hc] at hmem hacc hall
    refine ⟨?_, fun d hmemd => ?_⟩
    · rcases hmem with hmem | hmem
      · exact hmem ▸ List.mem_cons_self hd tl
      · exact List.mem_cons_of_mem hd hmem
    · rcases List.mem_cons.mp hmemd with hd' | hd'
      · exact le_of_neg_le_neg (hd' ▸ hacc)
      · exact le_of_neg_le_neg (hall d hd')

/-- Witness for C6: on the concrete checkpoint list, the recovered
checkpoint is the one with the lowest recorded error rate, and it belongs
to the list. -/
theorem final_evaluation_order_witness :
    recover_if_possible (fun c => -c.per) cks = some ⟨2, 3⟩
    ∧ (⟨2, (3 : ℚ)⟩ : Checkpoint) ∈ cks :=
  ⟨by decide, ((final_evaluation_order cks).2 ⟨2, 3⟩ (by decide)).1⟩
